import Mathlib

/-!
Verification of the cache-and-recommend core of the personalized-learning
backend (files backend/database.py and backend/main.py).

The embedding is shallow: SQLite tables become Lean lists of row structures,
each endpoint becomes a pure function from the relevant table states to a
result and updated table states, and the json module used by the code for
the data and quiz_data columns is modelled by an executable encoder and
decoder over an inductive JSON value type, with a proved decode-of-encode
round trip.  SQL integers are modelled as Int (SQLite integers are 64-bit,
but none of the verified operations can overflow them, so no modular
reduction is applied).
-/

namespace LearningPlatform

/-- JSON values, the structured payloads stored in the data and quiz_data
columns of the generated_content table.  Numbers are modelled as integers
(the payloads written by the code hold only strings).  Object fields keep
their insertion order, as Python dicts and json.dumps do. -/
inductive Json where
  | null : Json
  | bool (b : Bool) : Json
  | num (n : Int) : Json
  | str (s : String) : Json
  | arr (xs : List Json) : Json
  | obj (fields : List (String × Json)) : Json

/-- Python truthiness on a JSON value, as used by the code in
`json.dumps(quiz_data) if quiz_data else None`: None, False, 0, empty
string, empty list and empty dict are falsy. -/
def Json.truthy : Json → Bool
  | .null => false
  | .bool b => b
  | .num n => decide (n ≠ 0)
  | .str s => decide (s ≠ "")
  | .arr xs => !xs.isEmpty
  | .obj fs => !fs.isEmpty

/-- Opening brace character of a JSON object. -/
def lbrace : Char := '\x7b'

/-- Closing brace character of a JSON object. -/
def rbrace : Char := '\x7d'

/-- Decimal digit character for a digit value below ten. -/
def digitChar (n : Nat) : Char :=
  if n = 0 then '0' else if n = 1 then '1' else if n = 2 then '2' else if n = 3 then '3'
  else if n = 4 then '4' else if n = 5 then '5' else if n = 6 then '6' else if n = 7 then '7'
  else if n = 8 then '8' else '9'

/-- Numeric value of a decimal digit character. -/
def charDigit (c : Char) : Nat := c.toNat - 48

/-- Decimal representation of a natural number, most significant digit
first, as json.dumps prints integers. -/
def encodeNat (m : Nat) : List Char :=
  if m < 10 then [digitChar m] else encodeNat (m / 10) ++ [digitChar (m % 10)]
termination_by m
decreasing_by exact Nat.div_lt_self (by omega) (by omega)

/-- Ten to the number of digits of m; companion of encodeNat for the
digit-parsing lemma. -/
def pad10 (m : Nat) : Nat :=
  if m < 10 then 10 else pad10 (m / 10) * 10
termination_by m
decreasing_by exact Nat.div_lt_self (by omega) (by omega)

/-- Decimal representation of an integer, with a leading minus sign on
negatives, as json.dumps prints Python ints. -/
def encodeInt (n : Int) : List Char :=
  if n < 0 then '-' :: encodeNat n.natAbs else encodeNat n.natAbs

/-- String-body escaping of one character, modelling the escapes json.dumps
emits that matter for the round trip: the quote, the backslash and the
common control characters; other characters are kept verbatim (the ASCII
escaping of the Python json module changes only the wire form, not the
decoded value, and is elided). -/
def escChar (c : Char) : List Char :=
  if c = '"' then ['\\', '"']
  else if c = '\\' then ['\\', '\\']
  else if c = '\n' then ['\\', 'n']
  else if c = '\t' then ['\\', 't']
  else if c = '\r' then ['\\', 'r']
  else [c]

/-- Escaped body of a JSON string literal. -/
def escStr : List Char → List Char
  | [] => []
  | c :: cs => escChar c ++ escStr cs

/-- The keyword null as characters. -/
def nullChars : List Char := ['n', 'u', 'l', 'l']

/-- The keyword true as characters. -/
def trueChars : List Char := ['t', 'r', 'u', 'e']

/-- The keyword false as characters. -/
def falseChars : List Char := ['f', 'a', 'l', 's', 'e']

mutual

/-- Wire form of a JSON value, following json.dumps with its default
separators (comma-space between items, colon-space after keys). -/
def encodeVal : Json → List Char
  | .null => nullChars
  | .bool true => trueChars
  | .bool false => falseChars
  | .num n => encodeInt n
  | .str s => '"' :: escStr s.data ++ ['"']
  | .arr xs => '[' :: encodeArr xs ++ [']']
  | .obj ps => lbrace :: encodeObj ps ++ [rbrace]

/-- Comma-space separated wire forms of array elements. -/
def encodeArr : List Json → List Char
  | [] => []
  | [x] => encodeVal x
  | x :: y :: xs => encodeVal x ++ ',' :: ' ' :: encodeArr (y :: xs)

/-- Comma-space separated wire forms of object fields, each a quoted key,
colon-space, and the value. -/
def encodeObj : List (String × Json) → List Char
  | [] => []
  | [(k, v)] => '"' :: escStr k.data ++ '"' :: ':' :: ' ' :: encodeVal v
  | (k, v) :: q :: ps =>
      '"' :: escStr k.data ++ '"' :: ':' :: ' ' :: encodeVal v ++ ',' :: ' ' :: encodeObj (q :: ps)

end

/-- Unescaping of one escaped character in a JSON string literal. -/
def unescChar (c : Char) : Option Char :=
  if c = '"' then some '"'
  else if c = '\\' then some '\\'
  else if c = 'n' then some '\n'
  else if c = 't' then some '\t'
  else if c = 'r' then some '\r'
  else none

/-- Scanner for the body of a JSON string literal, entered after the opening
quote; returns the decoded characters and the input after the closing
quote. -/
def parseStrChars : List Char → Option (List Char × List Char)
  | [] => none
  | c :: cs =>
    if c = '"' then some ([], cs)
    else if c = '\\' then
      match cs with
      | [] => none
      | e :: cs2 =>
        match unescChar e with
        | some c2 =>
          match parseStrChars cs2 with
          | some (s, r) => some (c2 :: s, r)
          | none => none
        | none => none
    else
      match parseStrChars cs with
      | some (s, r) => some (c :: s, r)
      | none => none

/-- Accumulating scanner for a run of decimal digits. -/
def parseDigits : List Char → Nat → Nat × List Char
  | [], acc => (acc, [])
  | c :: cs, acc => if c.isDigit then parseDigits cs (acc * 10 + charDigit c) else (acc, c :: cs)

/-- True when the input does not continue with a digit, so that a digit run
ends exactly here. -/
def headNotDigit : List Char → Bool
  | [] => true
  | c :: _ => !c.isDigit

mutual

/-- Fuel-indexed recursive-descent reader of one JSON value, the model of
json.loads on the wire forms the code stores. -/
def parseVal : Nat → List Char → Option (Json × List Char)
  | 0, _ => none
  | _ + 1, [] => none
  | f + 1, c :: cs =>
    if c.isDigit then
      let p := parseDigits (c :: cs) 0
      some (.num (p.1 : Int), p.2)
    else if c = '-' then
      match cs with
      | [] => none
      | d :: _ =>
        if d.isDigit then
          let p := parseDigits cs 0
          some (.num (-(p.1 : Int)), p.2)
        else none
    else if c = 'n' then
      match cs with
      | 'u' :: 'l' :: 'l' :: r => some (.null, r)
      | _ => none
    else if c = 't' then
      match cs with
      | 'r' :: 'u' :: 'e' :: r => some (.bool true, r)
      | _ => none
    else if c = 'f' then
      match cs with
      | 'a' :: 'l' :: 's' :: 'e' :: r => some (.bool false, r)
      | _ => none
    else if c = '"' then
      match parseStrChars cs with
      | some (s, r) => some (.str (String.mk s), r)
      | none => none
    else if c = '[' then
      match cs with
      | [] => none
      | c2 :: cs2 =>
        if c2 = ']' then some (.arr [], cs2)
        else
          match parseArrItems f (c2 :: cs2) with
          | some (xs, r) => some (.arr xs, r)
          | none => none
    else if c = lbrace then
      match cs with
      | [] => none
      | c2 :: cs2 =>
        if c2 = rbrace then some (.obj [], cs2)
        else
          match parseObjItems f (c2 :: cs2) with
          | some (ps, r) => some (.obj ps, r)
          | none => none
    else none

/-- Reader of the comma-space separated elements of a nonempty array,
ending at the closing bracket. -/
def parseArrItems : Nat → List Char → Option (List Json × List Char)
  | 0, _ => none
  | f + 1, cs =>
    match parseVal f cs with
    | none => none
    | some (v, r) =>
      match r with
      | [] => none
      | c :: r2 =>
        if c = ']' then some ([v], r2)
        else if c = ',' then
          match r2 with
          | ' ' :: r3 =>
            match parseArrItems f r3 with
            | some (vs, r4) => some (v :: vs, r4)
            | none => none
          | _ => none
        else none

/-- Reader of the comma-space separated fields of a nonempty object,
ending at the closing brace. -/
def parseObjItems : Nat → List Char → Option (List (String × Json) × List Char)
  | 0, _ => none
  | f + 1, cs =>
    match cs with
    | '"' :: cs1 =>
      match parseStrChars cs1 with
      | none => none
      | some (k, r1) =>
        match r1 with
        | ':' :: ' ' :: r2 =>
          match parseVal f r2 with
          | none => none
          | some (v, r3) =>
            match r3 with
            | [] => none
            | c :: r4 =>
              if c = rbrace then some ([(String.mk k, v)], r4)
              else if c = ',' then
                match r4 with
                | ' ' :: r5 =>
                  match parseObjItems f r5 with
                  | some (ps, r6) => some ((String.mk k, v) :: ps, r6)
                  | none => none
                | _ => none
              else none
        | _ => none
    | _ => none

end

mutual

/-- Structural weight of a JSON value, the fuel needed to parse it back. -/
def Json.weight : Json → Nat
  | .null => 1
  | .bool _ => 1
  | .num _ => 1
  | .str _ => 1
  | .arr xs => 1 + weightArr xs
  | .obj ps => 1 + weightObj ps

/-- Structural weight of an array body. -/
def weightArr : List Json → Nat
  | [] => 1
  | x :: xs => 1 + Json.weight x + weightArr xs

/-- Structural weight of an object body. -/
def weightObj : List (String × Json) → Nat
  | [] => 1
  | (_, v) :: ps => 1 + Json.weight v + weightObj ps

end

/-- Wire form of a JSON value as a string: the model of json.dumps. -/
def Json.encode (j : Json) : String := String.mk (encodeVal j)

/-- Reading a full JSON document from a string: the model of json.loads.
The fuel is sized from the input so that every value whose wire form this
is can be read back (see weight_le_encode below). -/
def Json.decode (s : String) : Option Json :=
  match parseVal (2 * s.data.length + 1) s.data with
  | some (j, []) => some j
  | _ => none

/-- Digit characters are digits. -/
theorem digitChar_isDigit (n : Nat) (h : n < 10) : (digitChar n).isDigit = true := by
  interval_cases n <;> decide

/-- Reading back a digit character recovers the digit. -/
theorem charDigit_digitChar (n : Nat) (h : n < 10) : charDigit (digitChar n) = n := by
  interval_cases n <;> decide

/-- The decimal form of a natural number is never empty. -/
theorem encodeNat_ne_nil (m : Nat) : encodeNat m ≠ [] := by
  rw [encodeNat]
  split <;> simp

/-- Every character of the decimal form of a natural number is a digit. -/
theorem encodeNat_all_digits (m : Nat) : ∀ c ∈ encodeNat m, c.isDigit = true := by
  induction m using Nat.strong_induction_on with
  | _ m ih =>
    rw [encodeNat]
    split
    · intro c hc
      rw [List.mem_singleton] at hc
      subst hc
      exact digitChar_isDigit m (by omega)
    · intro c hc
      rcases List.mem_append.mp hc with h | h
      · exact ih (m / 10) (Nat.div_lt_self (by omega) (by omega)) c h
      · rw [List.mem_singleton] at h
        subst h
        exact digitChar_isDigit (m % 10) (Nat.mod_lt _ (by omega))

/-- A digit character is none of the characters that start another kind of
JSON value, nor a closing bracket or brace. -/
theorem isDigit_ne (c : Char) (h : c.isDigit = true) :
    c ≠ 'n' ∧ c ≠ 't' ∧ c ≠ 'f' ∧ c ≠ '"' ∧ c ≠ '[' ∧ c ≠ lbrace ∧ c ≠ '-' ∧ c ≠ ']' ∧
      c ≠ rbrace := by
  refine ⟨?_, ?_, ?_, ?_, ?_, ?_, ?_, ?_, ?_⟩ <;>
    · intro he
      rw [he] at h
      exact absurd h (by decide)

/-- A digit scan stops immediately when the input does not start with a
digit. -/
theorem parseDigits_stop (r : List Char) (acc : Nat) (h : headNotDigit r = true) :
    parseDigits r acc = (acc, r) := by
  cases r with
  | nil => rfl
  | cons c cs =>
    have : c.isDigit = false := by
      simpa [headNotDigit] using h
    simp [parseDigits, this]

/-- Scanning the decimal form of m shifts the accumulator by the number of
digits of m and adds m. -/
theorem parseDigits_encodeNat (m : Nat) :
    ∀ acc rest, parseDigits (encodeNat m ++ rest) acc = parseDigits rest (acc * pad10 m + m) := by
  induction m using Nat.strong_induction_on with
  | _ m ih =>
    intro acc rest
    by_cases hm : m < 10
    · rw [encodeNat, if_pos hm, pad10, if_pos hm]
      simp [parseDigits, digitChar_isDigit m hm, charDigit_digitChar m hm]
    · rw [encodeNat, if_neg hm, pad10, if_neg hm]
      rw [List.append_assoc, List.singleton_append]
      rw [ih (m / 10) (Nat.div_lt_self (by omega) (by omega))]
      have hd : (digitChar (m % 10)).isDigit = true := digitChar_isDigit _ (Nat.mod_lt _ (by omega))
      simp only [parseDigits, hd, if_pos, charDigit_digitChar (m % 10) (Nat.mod_lt _ (by omega))]
      congr 1
      rw [← Nat.mul_assoc]
      omega

/-- Scanning an escaped string body recovers the original characters and
stops after the closing quote. -/
theorem parseStrChars_escStr (s : List Char) :
    ∀ rest, parseStrChars (escStr s ++ '"' :: rest) = some (s, rest) := by
  induction s with
  | nil =>
    intro rest
    rw [escStr, List.nil_append, parseStrChars.eq_def]
    simp
  | cons c cs ih =>
    intro rest
    by_cases h1 : c = '"'
    · subst h1
      rw [escStr, escChar]
      simp only [if_pos rfl, List.cons_append, List.nil_append]
      rw [parseStrChars.eq_def]
      simp [unescChar, ih]
    · by_cases h2 : c = '\\'
      · subst h2
        rw [escStr, escChar]
        simp only [if_neg (by decide : ¬('\\' = '"')), if_pos rfl, List.cons_append,
          List.nil_append]
        rw [parseStrChars.eq_def]
        simp [unescChar, ih]
      · by_cases h3 : c = '\n'
        · subst h3
          rw [escStr, escChar]
          simp only [if_neg (by decide : ¬('\n' = '"')), if_neg (by decide : ¬('\n' = '\\')),
            if_pos rfl, List.cons_append, List.nil_append]
          rw [parseStrChars.eq_def]
          simp [unescChar, ih]
        · by_cases h4 : c = '\t'
          · subst h4
            rw [escStr, escChar]
            simp only [if_neg (by decide : ¬('\t' = '"')), if_neg (by decide : ¬('\t' = '\\')),
              if_neg (by decide : ¬('\t' = '\n')), if_pos rfl, List.cons_append, List.nil_append]
            rw [parseStrChars.eq_def]
            simp [unescChar, ih]
          · by_cases h5 : c = '\r'
            · subst h5
              rw [escStr, escChar]
              simp only [if_neg (by decide : ¬('\r' = '"')), if_neg (by decide : ¬('\r' = '\\')),
                if_neg (by decide : ¬('\r' = '\n')), if_neg (by decide : ¬('\r' = '\t')),
                if_pos rfl, List.cons_append, List.nil_append]
              rw [parseStrChars.eq_def]
              simp [unescChar, ih]
            · rw [escStr, escChar, if_neg h1, if_neg h2, if_neg h3, if_neg h4, if_neg h5]
              rw [List.singleton_append, parseStrChars.eq_def]
              simp [h1, h2, ih]

/-- Rebuilding a string from its character list is the identity. -/
theorem string_mk_data (s : String) : String.mk s.data = s := rfl

/-- Unfolding lemma for headNotDigit on a cons cell. -/
theorem headNotDigit_cons (c : Char) (cs : List Char) :
    headNotDigit (c :: cs) = !c.isDigit := rfl

/-- Every JSON wire form starts with a character other than a closing
bracket. -/
theorem encodeVal_head (j : Json) : ∃ d ds, encodeVal j = d :: ds ∧ d ≠ ']' := by
  cases j with
  | null => exact ⟨'n', ['u', 'l', 'l'], by rw [encodeVal, nullChars], by decide⟩
  | bool b =>
    cases b with
    | true => exact ⟨'t', ['r', 'u', 'e'], by rw [encodeVal, trueChars], by decide⟩
    | false => exact ⟨'f', ['a', 'l', 's', 'e'], by rw [encodeVal, falseChars], by decide⟩
  | num n =>
    by_cases hn : n < 0
    · exact ⟨'-', encodeNat n.natAbs, by rw [encodeVal, encodeInt, if_pos hn], by decide⟩
    · cases hE : encodeNat n.natAbs with
      | nil => exact absurd hE (encodeNat_ne_nil _)
      | cons d ds =>
        have hd : d.isDigit = true := encodeNat_all_digits n.natAbs d (by rw [hE]; simp)
        exact ⟨d, ds, by rw [encodeVal, encodeInt, if_neg hn, hE], (isDigit_ne d hd).2.2.2.2.2.2.2.1⟩
  | str s => exact ⟨'"', escStr s.data ++ ['"'], by rw [encodeVal, List.cons_append], by decide⟩
  | arr xs => exact ⟨'[', encodeArr xs ++ [']'], by rw [encodeVal, List.cons_append], by decide⟩
  | obj ps =>
    exact ⟨lbrace, encodeObj ps ++ [rbrace], by rw [encodeVal, List.cons_append], by decide⟩

/-- The wire form of a nonempty array body starts with a character other
than a closing bracket. -/
theorem encodeArr_head (x : Json) (xs : List Json) :
    ∃ d ds, encodeArr (x :: xs) = d :: ds ∧ d ≠ ']' := by
  obtain ⟨d, ds, hE, hne⟩ := encodeVal_head x
  cases xs with
  | nil => exact ⟨d, ds, by rw [encodeArr, hE], hne⟩
  | cons y ys =>
    exact ⟨d, ds ++ ',' :: ' ' :: encodeArr (y :: ys),
      by rw [encodeArr, hE, List.cons_append], hne⟩

/-- The wire form of a nonempty object body starts with a quote. -/
theorem encodeObj_head (k : String) (v : Json) (ps : List (String × Json)) :
    ∃ ds, encodeObj ((k, v) :: ps) = '"' :: ds := by
  cases ps with
  | nil => exact ⟨_, by rw [encodeObj, List.cons_append]⟩
  | cons q qs => exact ⟨_, by rw [encodeObj, List.cons_append, List.cons_append]⟩

/-- Weight of a JSON value is positive. -/
theorem weight_pos (j : Json) : 1 ≤ j.weight := by
  cases j <;> rw [Json.weight] <;> omega

/-- Weight of an array body is positive. -/
theorem weightArr_pos (xs : List Json) : 1 ≤ weightArr xs := by
  cases xs <;> rw [weightArr] <;> omega

/-- Weight of an object body is positive. -/
theorem weightObj_pos (ps : List (String × Json)) : 1 ≤ weightObj ps := by
  cases ps with
  | nil => rw [weightObj]
  | cons p ps => cases p; rw [weightObj]; omega

/-- Step lemma: a value read starting with a digit is a number scan. -/
theorem parseVal_digit (f : Nat) (d : Char) (cs : List Char) (hd : d.isDigit = true) :
    parseVal (f + 1) (d :: cs) =
      some (.num ((parseDigits (d :: cs) 0).1 : Int), (parseDigits (d :: cs) 0).2) := by
  change (if d.isDigit = true then
      some (Json.num ((parseDigits (d :: cs) 0).1 : Int), (parseDigits (d :: cs) 0).2)
    else _) = _
  rw [if_pos hd]

/-- Step lemma: a value read starting with a minus sign followed by a digit
is a negated number scan. -/
theorem parseVal_neg (f : Nat) (d : Char) (r : List Char) (hd : d.isDigit = true) :
    parseVal (f + 1) ('-' :: d :: r) =
      some (.num (-((parseDigits (d :: r) 0).1 : Int)), (parseDigits (d :: r) 0).2) := by
  change (if d.isDigit = true then
      some (Json.num (-((parseDigits (d :: r) 0).1 : Int)), (parseDigits (d :: r) 0).2)
    else none) = _
  rw [if_pos hd]

/-- Step lemma: a value read starting with a quote scans a string body. -/
theorem parseVal_quote (f : Nat) (X : List Char) :
    parseVal (f + 1) ('"' :: X) =
      (match parseStrChars X with
       | some (s, r) => some (Json.str (String.mk s), r)
       | none => none) := rfl

/-- Step lemma: a value read starting with an opening bracket on a
character other than a closing bracket scans array items. -/
theorem parseVal_arr_cons (f : Nat) (c2 : Char) (cs2 : List Char) (h : ¬(c2 = ']')) :
    parseVal (f + 1) ('[' :: c2 :: cs2) =
      (match parseArrItems f (c2 :: cs2) with
       | some (xs, r) => some (Json.arr xs, r)
       | none => none) := by
  change (if c2 = ']' then _ else _) = _
  rw [if_neg h]

/-- Step lemma: a value read starting with an opening brace on a character
other than a closing brace scans object fields. -/
theorem parseVal_obj_cons (f : Nat) (c2 : Char) (cs2 : List Char) (h : ¬(c2 = rbrace)) :
    parseVal (f + 1) (lbrace :: c2 :: cs2) =
      (match parseObjItems f (c2 :: cs2) with
       | some (ps, r) => some (Json.obj ps, r)
       | none => none) := by
  change (if c2 = rbrace then _ else _) = _
  rw [if_neg h]

/-- Step lemma: unfolding of the array-items reader at positive fuel. -/
theorem parseArrItems_succ (f : Nat) (cs : List Char) :
    parseArrItems (f + 1) cs =
      (match parseVal f cs with
       | none => none
       | some (v, r) =>
         match r with
         | [] => none
         | c :: r2 =>
           if c = ']' then some ([v], r2)
           else if c = ',' then
             match r2 with
             | ' ' :: r3 =>
               (match parseArrItems f r3 with
                | some (vs, r4) => some (v :: vs, r4)
                | none => none)
             | _ => none
           else none) := rfl

/-- Step lemma: unfolding of the object-fields reader at positive fuel on
an input starting with a quote. -/
theorem parseObjItems_quote (f : Nat) (X : List Char) :
    parseObjItems (f + 1) ('"' :: X) =
      (match parseStrChars X with
       | none => none
       | some (k, r1) =>
         match r1 with
         | ':' :: ' ' :: r2 =>
           (match parseVal f r2 with
            | none => none
            | some (v, r3) =>
              match r3 with
              | [] => none
              | c :: r4 =>
                if c = rbrace then some ([(String.mk k, v)], r4)
                else if c = ',' then
                  match r4 with
                  | ' ' :: r5 =>
                    (match parseObjItems f r5 with
                     | some (ps, r6) => some ((String.mk k, v) :: ps, r6)
                     | none => none)
                  | _ => none
                else none)
         | _ => none) := rfl

/-- Reading back a wire form recovers the encoded value: the joint
statement for values, array bodies and object bodies, by induction on the
fuel.  The rest of the input is returned untouched; for values it must not
start with a digit, so that a trailing number ends where the wire form
ends. -/
theorem parse_encode (f : Nat) :
    (∀ j rest, Json.weight j ≤ f → headNotDigit rest = true →
      parseVal f (encodeVal j ++ rest) = some (j, rest)) ∧
    (∀ xs rest, xs ≠ [] → weightArr xs ≤ f →
      parseArrItems f (encodeArr xs ++ ']' :: rest) = some (xs, rest)) ∧
    (∀ ps rest, ps ≠ [] → weightObj ps ≤ f →
      parseObjItems f (encodeObj ps ++ rbrace :: rest) = some (ps, rest)) := by
  induction f with
  | zero =>
    refine ⟨fun j rest hw _ => absurd hw ?_, fun xs rest _ hw => absurd hw ?_,
      fun ps rest _ hw => absurd hw ?_⟩
    · have := weight_pos j; omega
    · have := weightArr_pos xs; omega
    · have := weightObj_pos ps; omega
  | succ f ih =>
    obtain ⟨ihV, ihA, ihO⟩ := ih
    refine ⟨?_, ?_, ?_⟩
    · intro j rest hw hr
      cases j with
      | null => exact rfl
      | bool b => cases b <;> exact rfl
      | num n =>
        have hPD : parseDigits (encodeNat n.natAbs ++ rest) 0 = (n.natAbs, rest) := by
          rw [parseDigits_encodeNat, Nat.zero_mul, Nat.zero_add, parseDigits_stop rest _ hr]
        cases hE : encodeNat n.natAbs with
        | nil => exact absurd hE (encodeNat_ne_nil _)
        | cons d ds =>
          have hd : d.isDigit = true := encodeNat_all_digits n.natAbs d (by rw [hE]; simp)
          rw [hE, List.cons_append] at hPD
          by_cases hn : n < 0
          · have hshape : encodeVal (.num n) ++ rest = '-' :: d :: (ds ++ rest) := by
              rw [encodeVal, encodeInt, if_pos hn, hE, List.cons_append, List.cons_append]
            rw [hshape, parseVal_neg f d (ds ++ rest) hd, hPD]
            have hval : -((n.natAbs : Int)) = n := by omega
            show some (Json.num (-((n.natAbs : Int))), rest) = _
            rw [hval]
          · have hshape : encodeVal (.num n) ++ rest = d :: (ds ++ rest) := by
              rw [encodeVal, encodeInt, if_neg hn, hE, List.cons_append]
            rw [hshape, parseVal_digit f d (ds ++ rest) hd, hPD]
            have hval : ((n.natAbs : Int)) = n := by omega
            show some (Json.num ((n.natAbs : Int)), rest) = _
            rw [hval]
      | str s =>
        have hshape : encodeVal (.str s) ++ rest = '"' :: (escStr s.data ++ '"' :: rest) := by
          rw [encodeVal, List.append_assoc, List.singleton_append, List.cons_append]
        rw [hshape, parseVal_quote, parseStrChars_escStr]
      | arr xs =>
        rw [Json.weight] at hw
        cases xs with
        | nil => exact rfl
        | cons x xs =>
          obtain ⟨d, ds, hA, hdne⟩ := encodeArr_head x xs
          have hItems : parseArrItems f (encodeArr (x :: xs) ++ ']' :: rest) =
              some (x :: xs, rest) := ihA (x :: xs) rest (by simp) (by omega)
          have hshape : encodeVal (.arr (x :: xs)) ++ rest =
              '[' :: d :: (ds ++ ']' :: rest) := by
            rw [encodeVal, List.append_assoc, List.singleton_append, hA, List.cons_append,
              List.cons_append]
          rw [hA, List.cons_append] at hItems
          rw [hshape, parseVal_arr_cons f d (ds ++ ']' :: rest) hdne, hItems]
      | obj ps =>
        rw [Json.weight] at hw
        cases ps with
        | nil => exact rfl
        | cons p ps =>
          obtain ⟨k, v⟩ := p
          obtain ⟨ds, hO⟩ := encodeObj_head k v ps
          have hItems : parseObjItems f (encodeObj ((k, v) :: ps) ++ rbrace :: rest) =
              some ((k, v) :: ps, rest) := ihO ((k, v) :: ps) rest (by simp) (by omega)
          have hshape : encodeVal (.obj ((k, v) :: ps)) ++ rest =
              lbrace :: '"' :: (ds ++ rbrace :: rest) := by
            rw [encodeVal, List.append_assoc, List.singleton_append, hO, List.cons_append,
              List.cons_append]
          rw [hO, List.cons_append] at hItems
          rw [hshape, parseVal_obj_cons f '"' (ds ++ rbrace :: rest) (by decide), hItems]
    · intro xs rest hne hw
      cases xs with
      | nil => exact absurd rfl hne
      | cons x tail =>
        cases tail with
        | nil =>
          rw [weightArr, weightArr] at hw
          have hV : parseVal f (encodeVal x ++ ']' :: rest) = some (x, ']' :: rest) := by
            refine ihV x (']' :: rest) (by omega) ?_
            rw [headNotDigit_cons]
            decide
          rw [encodeArr, parseArrItems_succ, hV]
          rfl
        | cons y ys =>
          rw [weightArr] at hw
          have hwx := weight_pos x
          have hV : parseVal f
              (encodeVal x ++ ',' :: ' ' :: (encodeArr (y :: ys) ++ ']' :: rest)) =
              some (x, ',' :: ' ' :: (encodeArr (y :: ys) ++ ']' :: rest)) := by
            refine ihV x _ (by omega) ?_
            rw [headNotDigit_cons]
            decide
          have hIt : parseArrItems f (encodeArr (y :: ys) ++ ']' :: rest) =
              some (y :: ys, rest) := ihA (y :: ys) rest (by simp) (by omega)
          have hshape : encodeArr (x :: y :: ys) ++ ']' :: rest =
              encodeVal x ++ ',' :: ' ' :: (encodeArr (y :: ys) ++ ']' :: rest) := by
            rw [encodeArr, List.append_assoc, List.cons_append, List.cons_append]
          rw [hshape, parseArrItems_succ, hV]
          show (match parseArrItems f (encodeArr (y :: ys) ++ ']' :: rest) with
            | some (vs, r4) => some (x :: vs, r4)
            | none => none) = some (x :: y :: ys, rest)
          rw [hIt]
    · intro ps rest hne hw
      cases ps with
      | nil => exact absurd rfl hne
      | cons p tail =>
        obtain ⟨k, v⟩ := p
        cases tail with
        | nil =>
          rw [weightObj, weightObj] at hw
          have hV : parseVal f (encodeVal v ++ rbrace :: rest) = some (v, rbrace :: rest) := by
            refine ihV v (rbrace :: rest) (by omega) ?_
            rw [headNotDigit_cons]
            decide
          have hshape : encodeObj [(k, v)] ++ rbrace :: rest =
              '"' :: (escStr k.data ++ '"' :: (':' :: ' ' :: (encodeVal v ++ rbrace :: rest))) := by
            rw [encodeObj]
            simp only [List.cons_append, List.append_assoc]
          rw [hshape, parseObjItems_quote, parseStrChars_escStr]
          show (match parseVal f (encodeVal v ++ rbrace :: rest) with
            | none => none
            | some (v2, r3) =>
              match r3 with
              | [] => none
              | c :: r4 =>
                if c = rbrace then some ([(String.mk k.data, v2)], r4)
                else if c = ',' then
                  match r4 with
                  | ' ' :: r5 =>
                    (match parseObjItems f r5 with
                     | some (ps2, r6) => some ((String.mk k.data, v2) :: ps2, r6)
                     | none => none)
                  | _ => none
                else none) = some ([(k, v)], rest)
          rw [hV]
          rfl
        | cons q qs =>
          rw [weightObj] at hw
          have hwv := weight_pos v
          have hV : parseVal f
              (encodeVal v ++ ',' :: ' ' :: (encodeObj (q :: qs) ++ rbrace :: rest)) =
              some (v, ',' :: ' ' :: (encodeObj (q :: qs) ++ rbrace :: rest)) := by
            refine ihV v _ (by omega) ?_
            rw [headNotDigit_cons]
            decide
          have hIt : parseObjItems f (encodeObj (q :: qs) ++ rbrace :: rest) =
              some (q :: qs, rest) := ihO (q :: qs) rest (by simp) (by omega)
          have hshape : encodeObj ((k, v) :: q :: qs) ++ rbrace :: rest =
              '"' :: (escStr k.data ++
                '"' :: (':' :: ' ' ::
                  (encodeVal v ++ ',' :: ' ' :: (encodeObj (q :: qs) ++ rbrace :: rest)))) := by
            rw [encodeObj]
            simp only [List.cons_append, List.append_assoc]
          rw [hshape, parseObjItems_quote, parseStrChars_escStr]
          show (match parseVal f
              (encodeVal v ++ ',' :: ' ' :: (encodeObj (q :: qs) ++ rbrace :: rest)) with
            | none => none
            | some (v2, r3) =>
              match r3 with
              | [] => none
              | c :: r4 =>
                if c = rbrace then some ([(String.mk k.data, v2)], r4)
                else if c = ',' then
                  match r4 with
                  | ' ' :: r5 =>
                    (match parseObjItems f r5 with
                     | some (ps2, r6) => some ((String.mk k.data, v2) :: ps2, r6)
                     | none => none)
                  | _ => none
                else none) = some ((k, v) :: q :: qs, rest)
          rw [hV]
          show (match parseObjItems f (encodeObj (q :: qs) ++ rbrace :: rest) with
            | some (ps2, r6) => some ((String.mk k.data, v) :: ps2, r6)
            | none => none) = some ((k, v) :: q :: qs, rest)
          rw [hIt]

/-- Size of a JSON value is positive (structural size used for the bound
induction below). -/
theorem json_sizeOf_pos (j : Json) : 1 ≤ sizeOf j := by
  cases j <;> simp

/-- The weight of a value is at most twice the length of its wire form, so
fuel sized from the wire form suffices to read it back. -/
theorem weight_le_encode (n : Nat) :
    (∀ j : Json, sizeOf j ≤ n → Json.weight j ≤ 2 * (encodeVal j).length) ∧
    (∀ xs : List Json, sizeOf xs ≤ n → weightArr xs ≤ 2 * (encodeArr xs).length + 2) ∧
    (∀ ps : List (String × Json), sizeOf ps ≤ n →
      weightObj ps ≤ 2 * (encodeObj ps).length + 2) := by
  induction n with
  | zero =>
    refine ⟨fun j hsz => absurd hsz ?_, fun xs hsz => absurd hsz ?_, fun ps hsz => absurd hsz ?_⟩
    · have := json_sizeOf_pos j; omega
    · cases xs <;> simp
    · cases ps <;> simp
  | succ n ih =>
    obtain ⟨ihV, ihA, ihO⟩ := ih
    refine ⟨?_, ?_, ?_⟩
    · intro j hsz
      cases j with
      | null => rw [Json.weight, encodeVal]; simp [nullChars]
      | bool b => cases b <;> (rw [Json.weight, encodeVal]; simp [trueChars, falseChars])
      | num m =>
        have hlen : 1 ≤ (encodeNat m.natAbs).length :=
          List.length_pos.mpr (encodeNat_ne_nil m.natAbs)
        rw [Json.weight, encodeVal, encodeInt]
        by_cases hm : m < 0
        · rw [if_pos hm]; simp; omega
        · rw [if_neg hm]; omega
      | str s => rw [Json.weight, encodeVal]; simp; omega
      | arr xs =>
        simp only [Json.arr.sizeOf_spec] at hsz
        have hA := ihA xs (by omega)
        rw [Json.weight, encodeVal]
        simp only [List.cons_append, List.length_cons, List.length_append,
          List.length_singleton]
        omega
      | obj ps =>
        simp only [Json.obj.sizeOf_spec] at hsz
        have hO := ihO ps (by omega)
        rw [Json.weight, encodeVal]
        simp only [List.cons_append, List.length_cons, List.length_append,
          List.length_singleton]
        omega
    · intro xs hsz
      cases xs with
      | nil => rw [weightArr, encodeArr]; simp
      | cons x tail =>
        simp only [List.cons.sizeOf_spec] at hsz
        have hx := ihV x (by omega)
        cases tail with
        | nil =>
          rw [weightArr, weightArr, encodeArr]
          omega
        | cons y ys =>
          have hyz := ihA (y :: ys) (by omega)
          rw [weightArr, encodeArr]
          simp only [List.length_append, List.length_cons]
          omega
    · intro ps hsz
      cases ps with
      | nil => rw [weightObj, encodeObj]; simp
      | cons p tail =>
        obtain ⟨k, v⟩ := p
        simp only [List.cons.sizeOf_spec, Prod.mk.sizeOf_spec] at hsz
        have hv := ihV v (by omega)
        cases tail with
        | nil =>
          rw [weightObj, weightObj, encodeObj]
          simp only [List.cons_append, List.length_cons, List.length_append]
          omega
        | cons q qs =>
          have hqs := ihO (q :: qs) (by omega)
          rw [weightObj, encodeObj]
          simp only [List.cons_append, List.length_cons, List.length_append]
          omega

/-- Round trip of the storage encoding: reading back the wire form of any
JSON value recovers the value exactly. -/
theorem decode_encode (j : Json) : Json.decode (Json.encode j) = some j := by
  have hb : Json.weight j ≤ 2 * (encodeVal j).length :=
    (weight_le_encode (sizeOf j)).1 j le_rfl
  have h := (parse_encode (2 * (encodeVal j).length + 1)).1 j [] (by omega) rfl
  rw [List.append_nil] at h
  show (match parseVal (2 * (encodeVal j).length + 1) (encodeVal j) with
    | some (j2, []) => some j2
    | _ => none) = some j
  rw [h]

/-- The wire form of a JSON value is never the empty string. -/
theorem encode_ne_empty (j : Json) : Json.encode j ≠ "" := by
  obtain ⟨d, ds, hE, _⟩ := encodeVal_head j
  unfold Json.encode
  rw [hE]
  intro hcon
  have := congrArg String.data hcon
  simp at this

/-!
Data model: the SQLite tables created by database.init_db, as lists of row
records in insertion order.  Column types follow the schema: INTEGER maps
to Int, TEXT to String, nullable TEXT to Option String.
-/

/-- A row of the lessons table. -/
structure LessonRow where
  id : Int
  lesson_title : String
  course_id : Int
  original_text : String

/-- A row of the generated_content table; data and quiz_data hold the
serialized JSON text exactly as stored. -/
structure ContentRow where
  lesson_id : Int
  style : String
  content_type : String
  data : String
  quiz_data : Option String

/-- A row of the socratic_dialogues table.  The understanding_score column
is nullable in the schema, but every insert in the code supplies an
integer, so it is modelled as Int. -/
structure DialogueRow where
  lesson_id : Int
  session_id : String
  style : String
  conversation_history : String
  understanding_score : Int

/-- The generated_content table. -/
abbrev ContentStore := List ContentRow

/-- The WHERE lesson_id = ? AND style = ? condition, also the UNIQUE key of
generated_content. -/
def contentKeyMatch (L : Int) (S : String) (r : ContentRow) : Bool :=
  r.lesson_id == L && r.style == S

/-- The decoded dictionary returned by database.get_cached_content.  The
data and quiz_data fields are Option Json: for data, none models
json.loads raising on malformed stored text (never the case for rows
written by cache_content); for quiz_data, none models the Python None. -/
structure CachedPayload where
  content_type : String
  data : Option Json
  quiz_data : Option Json

/-- database.get_cached_content: SELECT content_type, data, quiz_data FROM
generated_content WHERE lesson_id = ? AND style = ?, fetchone, then decode
data with json.loads and quiz_data with
`json.loads(result[2]) if result[2] else None` (Python truthiness: a NULL
column or an empty string both decode to None). -/
def get_cached_content (store : ContentStore) (L : Int) (S : String) : Option CachedPayload :=
  match store.find? (contentKeyMatch L S) with
  | none => none
  | some r =>
    some { content_type := r.content_type,
           data := Json.decode r.data,
           quiz_data :=
             match r.quiz_data with
             | some s => if s = "" then none else Json.decode s
             | none => none }

/-- The quiz_data column text written by database.cache_content:
`json.dumps(quiz_data) if quiz_data else None`, so a Python None or any
falsy value, such as an empty dict, is stored as NULL. -/
def quizStored : Option Json → Option String
  | some q => if q.truthy then some (Json.encode q) else none
  | none => none

/-- The row cache_content inserts: key, content type, json.dumps of data,
and the quiz_data text produced by quizStored. -/
def storedRow (L : Int) (S : String) (content_type : String) (data : Json)
    (quiz_data : Option Json) : ContentRow :=
  ⟨L, S, content_type, Json.encode data, quizStored quiz_data⟩

/-- database.cache_content: serialize and INSERT; a sqlite3.IntegrityError
from the UNIQUE(lesson_id, style) constraint is caught and ignored,
leaving the table unchanged. -/
def cache_content (store : ContentStore) (L : Int) (S : String) (content_type : String)
    (data : Json) (quiz_data : Option Json) : ContentStore :=
  if store.any (contentKeyMatch L S) then store
  else store ++ [storedRow L S content_type data quiz_data]

/-- The three tables touched by the verified endpoints. -/
structure DBState where
  lessons : List LessonRow
  generated_content : ContentStore
  socratic_dialogues : List DialogueRow

/-- main.delete_lesson: DELETE FROM lessons WHERE id = ?; no other table is
touched (no cascade). -/
def delete_lesson (db : DBState) (L : Int) : DBState :=
  { db with lessons := db.lessons.filter (fun r => !(r.id == L)) }

/-- Error outcomes surfaced by main.generate_adapted_content: the
HTTPException 404 for a missing lesson, and an uncaught exception from a
generation helper propagating to the framework boundary. -/
inductive ApiError where
  | notFound : ApiError
  | generationFailure (msg : String) : ApiError

/-- The JSON body returned by main.generate_adapted_content.  The response
carries content_type and data but not quiz_data. -/
structure AdaptedResponse where
  lesson_id : Int
  lesson_title : String
  learning_style : String
  content_type : String
  data : Option Json

/-- The content_type chosen by the style branch of
main.generate_adapted_content: Visual maps to image, Auditory to audio and
anything else to text. -/
def contentTypeFor (style : String) : String :=
  if style = "Visual" then "image" else if style = "Auditory" then "audio" else "text"

/-- main.generate_adapted_content with the two Content Store accesses taken
on explicit snapshots: stGet is the table state seen by the cache lookup,
stPut the state seen by the later insert (they differ exactly when another
writer commits between the two connections; the sequential run is the
special case stGet = stPut).  The three style-specific generation helpers
(DALL-E image, TTS audio, GPT text), including their prompt construction,
are abstracted as the external collaborator gen taking the style and the
lesson original_text; an exception inside a helper is its Except.error.
Returns the HTTP result, the store state after the write access, and
whether generation was invoked.  Steps follow the source: cache lookup; on
hit, a lesson_title lookup defaulting to "Unknown Topic" and an immediate
return of the cached content_type and data; on miss, the lesson row is
fetched (404 if absent), content is generated, cached with quiz_data None,
and the fresh payload is returned regardless of whether the insert
persisted. -/
def generate_adapted_content_at (stGet stPut : ContentStore) (lessons : List LessonRow)
    (L : Int) (S : String) (gen : String → String → Except String Json) :
    Except ApiError AdaptedResponse × ContentStore × Bool :=
  match get_cached_content stGet L S with
  | some cached =>
    let lesson_title :=
      match lessons.find? (fun r => r.id == L) with
      | some row => row.lesson_title
      | none => "Unknown Topic"
    (.ok { lesson_id := L, lesson_title := lesson_title, learning_style := S,
           content_type := cached.content_type, data := cached.data }, stPut, false)
  | none =>
    match lessons.find? (fun r => r.id == L) with
    | none => (.error .notFound, stPut, false)
    | some row =>
      match gen S row.original_text with
      | .error e => (.error (.generationFailure e), stPut, true)
      | .ok d =>
        (.ok { lesson_id := L, lesson_title := row.lesson_title, learning_style := S,
               content_type := contentTypeFor S, data := some d },
         cache_content stPut L S (contentTypeFor S) d none, true)

/-- main.generate_adapted_content run without interleaving: both store
accesses see the same state. -/
def generate_adapted_content (store : ContentStore) (lessons : List LessonRow)
    (L : Int) (S : String) (gen : String → String → Except String Json) :
    Except ApiError AdaptedResponse × ContentStore × Bool :=
  generate_adapted_content_at store store lessons L S gen

/-- ASCII whitespace stripped by Python str.strip (the full Python set also
contains some unicode spaces, which no grader output in scope uses). -/
def pyWhitespace (c : Char) : Bool :=
  c = ' ' || c = '\t' || c = '\n' || c = '\r' || c = '\x0b' || c = '\x0c'

/-- Python str.strip: drop leading and trailing whitespace. -/
def pyStrip (s : String) : String :=
  String.mk (((s.data.dropWhile pyWhitespace).reverse.dropWhile pyWhitespace).reverse)

/-- Numeric value of a digit string, most significant first. -/
def digitsToNat (ds : List Char) : Nat :=
  ds.foldl (fun acc c => acc * 10 + charDigit c) 0

/-- Python int() on an already stripped string: an optional sign followed
by at least one decimal digit; anything else raises ValueError, modelled as
none.  (Python additionally allows underscore digit grouping and unicode
digits, which no grader output in scope uses.) -/
def pyToInt? (s : String) : Option Int :=
  match s.data with
  | [] => none
  | '-' :: ds =>
    if !ds.isEmpty && ds.all Char.isDigit then some (-(digitsToNat ds : Int)) else none
  | '+' :: ds =>
    if !ds.isEmpty && ds.all Char.isDigit then some ((digitsToNat ds : Int)) else none
  | ds => if ds.all Char.isDigit then some ((digitsToNat ds : Int)) else none

/-- The request body of the Socratic endpoints; chat_history is the JSON
list of (role, content) turns as received. -/
structure SocraticRequestM where
  lesson_id : Int
  style : String
  chat_history : Json

/-- The socratic_dialogues row inserted by main.grade_conversation: the
request lesson_id, the constant session_id "session_placeholder", the
request style, the chat history serialized with json.dumps, and the parsed
score. -/
def gradeRecord (req : SocraticRequestM) (score : Int) : DialogueRow :=
  { lesson_id := req.lesson_id, session_id := "session_placeholder", style := req.style,
    conversation_history := Json.encode req.chat_history, understanding_score := score }

/-- main.grade_conversation given the grading collaborator output: inside
one try block the code parses int(score_str.strip()) and then inserts the
dialogue row; a ValueError from a non-numeric output jumps to the except
handler, which returns final_score 0 without inserting anything.  A
numeric output is stored and returned as is, with no range check.  Returns
the final_score and the updated socratic_dialogues table. -/
def grade_conversation (req : SocraticRequestM) (graderOutput : String)
    (log : List DialogueRow) : Int × List DialogueRow :=
  match pyToInt? (pyStrip graderOutput) with
  | some score => (score, log ++ [gradeRecord req score])
  | none => (0, log)

/-- One GROUP BY style group: the style, the sum of its scores and its row
count. -/
structure StyleAgg where
  style : String
  total : Int
  count : Nat

/-- Fold step building the style groups in scan order: a row either joins
its existing group or opens a new one at the end. -/
def addScore (gs : List StyleAgg) (row : String × Int) : List StyleAgg :=
  match gs with
  | [] => [⟨row.1, row.2, 1⟩]
  | g :: rest =>
    if g.style = row.1 then ⟨g.style, g.total + row.2, g.count + 1⟩ :: rest
    else g :: addScore rest row

/-- GROUP BY style over the scanned rows, in scan order. -/
def styleGroups (rows : List (String × Int)) : List StyleAgg :=
  rows.foldl addScore []

/-- Strict preference of the ORDER BY avg_score DESC, COUNT(id) DESC
clause: b strictly precedes a when its mean score is higher, or equal with
a larger count.  Means total/count are compared exactly by
cross-multiplication (counts are positive); SQLite computes AVG in double
precision, which agrees with the exact comparison for any realistic row
count. -/
def beats (a b : StyleAgg) : Bool :=
  decide (a.total * (b.count : Int) < b.total * (a.count : Int)) ||
    (decide (a.total * (b.count : Int) = b.total * (a.count : Int)) &&
      decide (a.count < b.count))

/-- fetchone after the ORDER BY: the first row of the sorted output, i.e. a
group no other group strictly beats, the earliest such group in scan order
when several tie exactly. -/
def pickBest : List StyleAgg → Option StyleAgg
  | [] => none
  | g :: gs => some (gs.foldl (fun best h => if beats best h then h else best) g)

/-- Core of main.recommend_style on the scanned (style, score) rows. -/
def recommendCore (rows : List (String × Int)) : Option String :=
  match pickBest (styleGroups rows) with
  | some g => if 4 * (g.count : Int) ≤ g.total then some g.style else none
  | none => none

/-- The (style, understanding_score) projection of the socratic_dialogues
rows WHERE lesson_id = ?, in table order. -/
def lessonRows (log : List DialogueRow) (L : Int) : List (String × Int) :=
  (log.filter (fun r => r.lesson_id == L)).map (fun r => (r.style, r.understanding_score))

/-- main.recommend_style: scan socratic_dialogues WHERE lesson_id = ?,
group by style, average understanding_score, order by average then count
descending, and return the top style when its average is at least 4.0,
None otherwise (also when there are no rows). -/
def recommend_style (log : List DialogueRow) (L : Int) : Option String :=
  recommendCore (lessonRows log L)

/-- A scan skips a leading segment in which nothing matches. -/
theorem find?_append_of_none {α : Type} (p : α → Bool) (l1 l2 : List α)
    (h : l1.find? p = none) : (l1 ++ l2).find? p = l2.find? p := by
  induction l1 with
  | nil => rfl
  | cons a l1 ih =>
    rw [List.find?] at h
    rw [List.cons_append, List.find?]
    cases hp : p a with
    | true => rw [hp] at h; simp at h
    | false =>
      rw [hp] at h
      simp only [cond_false] at h ⊢
      exact ih h

/-- An EXISTS check that fails means a scan finds nothing. -/
theorem find?_eq_none_of_any_eq_false {α : Type} (p : α → Bool) (l : List α)
    (h : l.any p = false) : l.find? p = none := by
  induction l with
  | nil => rfl
  | cons a l ih =>
    rw [List.any_cons, Bool.or_eq_false_iff] at h
    rw [List.find?, h.1]
    simpa using ih h.2

/-- The inserted row matches its own key. -/
theorem contentKeyMatch_storedRow (L : Int) (S : String) (ct : String) (d : Json)
    (q : Option Json) : contentKeyMatch L S (storedRow L S ct d q) = true := by
  simp [contentKeyMatch, storedRow]

/-- The quiz_data value read back by get_cached_content from a row written
by cache_content: a falsy or absent quiz collapses to absent, a truthy one
survives exactly. -/
def collapseQuiz : Option Json → Option Json
  | some q => if q.truthy then some q else none
  | none => none

/-- Reading the quiz_data column of a stored row decodes to the collapsed
quiz value. -/
theorem readQuiz_storedRow (q : Option Json) :
    (match quizStored q with
     | some s => if s = "" then none else Json.decode s
     | none => none) = collapseQuiz q := by
  cases q with
  | none => rfl
  | some q0 =>
    rw [quizStored, collapseQuiz]
    by_cases ht : q0.truthy = true
    · rw [if_pos ht, if_pos ht]
      show (if Json.encode q0 = "" then none else Json.decode (Json.encode q0)) = some q0
      rw [if_neg (encode_ne_empty q0), decode_encode]
    · rw [if_neg ht, if_neg ht]

/-- Inserting into a store with no row for the key appends the stored row. -/
theorem cache_content_of_absent (store : ContentStore) (L : Int) (S : String)
    (ct : String) (d : Json) (q : Option Json)
    (h : store.any (contentKeyMatch L S) = false) :
    cache_content store L S ct d q = store ++ [storedRow L S ct d q] := by
  rw [cache_content, if_neg (by rw [h]; exact Bool.false_ne_true)]

/-- Inserting into a store that already has a row for the key is a no-op. -/
theorem cache_content_of_present (store : ContentStore) (L : Int) (S : String)
    (ct : String) (d : Json) (q : Option Json)
    (h : store.any (contentKeyMatch L S) = true) :
    cache_content store L S ct d q = store := by
  rw [cache_content, if_pos h]

/-- After a fresh insert the key is present. -/
theorem any_after_insert (store : ContentStore) (L : Int) (S : String) (ct : String)
    (d : Json) (q : Option Json) :
    (store ++ [storedRow L S ct d q]).any (contentKeyMatch L S) = true := by
  rw [List.any_eq_true]
  exact ⟨storedRow L S ct d q, by simp, contentKeyMatch_storedRow L S ct d q⟩

/-- Reading back the key just inserted into a store that had no row for it
returns the stored content type, the decoded data (exactly the value
written), and the collapsed quiz value. -/
theorem get_after_put (store : ContentStore) (L : Int) (S : String) (ct : String)
    (d : Json) (q : Option Json) (h : store.any (contentKeyMatch L S) = false) :
    get_cached_content (cache_content store L S ct d q) L S =
      some ⟨ct, some d, collapseQuiz q⟩ := by
  rw [cache_content_of_absent store L S ct d q h, get_cached_content,
    find?_append_of_none _ _ _ (find?_eq_none_of_any_eq_false _ _ h), List.find?,
    contentKeyMatch_storedRow]
  show some (CachedPayload.mk ct (Json.decode (Json.encode d))
      (match quizStored q with
       | some s => if s = "" then none else Json.decode s
       | none => none)) = some (CachedPayload.mk ct (some d) (collapseQuiz q))
  rw [decode_encode, readQuiz_storedRow]

/-- Adding a row keeps every group count positive. -/
theorem addScore_count_pos (gs : List StyleAgg) (row : String × Int)
    (h : ∀ g ∈ gs, 1 ≤ g.count) : ∀ g ∈ addScore gs row, 1 ≤ g.count := by
  induction gs with
  | nil =>
    intro g hg
    rw [addScore] at hg
    rw [List.mem_singleton] at hg
    subst hg
    exact Nat.le_refl 1
  | cons g0 rest ih =>
    intro g hg
    rw [addScore] at hg
    by_cases hs : g0.style = row.1
    · rw [if_pos hs] at hg
      rcases List.mem_cons.mp hg with rfl | hg
      · exact Nat.le_add_left 1 g0.count
      · exact h g (List.mem_cons_of_mem g0 hg)
    · rw [if_neg hs] at hg
      rcases List.mem_cons.mp hg with rfl | hg
      · exact h _ (List.mem_cons_self _ _)
      · exact ih (fun g2 hg2 => h g2 (List.mem_cons_of_mem g0 hg2)) g hg

/-- Every group produced by the scan has at least one row. -/
theorem styleGroups_count_pos (rows : List (String × Int)) :
    ∀ g ∈ styleGroups rows, 1 ≤ g.count := by
  suffices h : ∀ gs, (∀ g ∈ gs, 1 ≤ g.count) → ∀ g ∈ rows.foldl addScore gs, 1 ≤ g.count by
    exact h [] (by intro g hg; exact absurd hg (List.not_mem_nil g))
  induction rows with
  | nil => intro gs h g hg; exact h g hg
  | cons r rows ih =>
    intro gs h g hg
    exact ih (addScore gs r) (addScore_count_pos gs r h) g hg

/-- The ordering predicate in propositional form: b does not strictly beat
a exactly when the mean of b is at most the mean of a, with count at most
on an exact tie of means. -/
theorem beats_eq_false_iff (a b : StyleAgg) :
    beats a b = false ↔
      b.total * (a.count : Int) ≤ a.total * (b.count : Int) ∧
        (a.total * (b.count : Int) = b.total * (a.count : Int) → b.count ≤ a.count) := by
  simp only [beats, Bool.or_eq_false_iff, Bool.and_eq_false_iff, decide_eq_false_iff_not,
    not_lt]
  constructor
  · rintro ⟨h1, h2⟩
    refine ⟨h1, fun he => ?_⟩
    rcases h2 with h2 | h2
    · exact absurd he h2
    · omega
  · rintro ⟨h1, h2⟩
    refine ⟨h1, ?_⟩
    by_cases he : a.total * (b.count : Int) = b.total * (a.count : Int)
    · exact Or.inr (by have := h2 he; omega)
    · exact Or.inl he

/-- The ordering predicate in propositional form, positive case. -/
theorem beats_eq_true_iff (a b : StyleAgg) :
    beats a b = true ↔
      a.total * (b.count : Int) < b.total * (a.count : Int) ∨
        (a.total * (b.count : Int) = b.total * (a.count : Int) ∧ a.count < b.count) := by
  simp [beats]

/-- Nothing strictly beats itself. -/
theorem beats_irrefl (a : StyleAgg) : beats a a = false := by
  rw [beats_eq_false_iff]
  omega

/-- Transitivity: if b does not beat a and a does not beat c, then b does
not beat c (counts positive). -/
theorem beats_trans_ff (a b c : StyleAgg) (ha : 1 ≤ a.count) (hb : 1 ≤ b.count)
    (hc : 1 ≤ c.count) (h1 : beats a b = false) (h2 : beats c a = false) :
    beats c b = false := by
  rw [beats_eq_false_iff] at h1 h2 ⊢
  have hxa : (0 : Int) < (a.count : Int) := by exact_mod_cast ha
  have hxb : (0 : Int) < (b.count : Int) := by exact_mod_cast hb
  have hxc : (0 : Int) < (c.count : Int) := by exact_mod_cast hc
  obtain ⟨h11, h12⟩ := h1
  obtain ⟨h21, h22⟩ := h2
  have hmain : b.total * (c.count : Int) ≤ c.total * (b.count : Int) := by
    nlinarith [mul_le_mul_of_nonneg_right h11 (le_of_lt hxc),
      mul_le_mul_of_nonneg_right h21 (le_of_lt hxb)]
  refine ⟨hmain, fun he => ?_⟩
  have e1 : a.total * (b.count : Int) = b.total * (a.count : Int) := by
    nlinarith [mul_le_mul_of_nonneg_right h11 (le_of_lt hxc),
      mul_le_mul_of_nonneg_right h21 (le_of_lt hxb)]
  have e2 : c.total * (a.count : Int) = a.total * (c.count : Int) := by
    nlinarith [mul_le_mul_of_nonneg_right h11 (le_of_lt hxc),
      mul_le_mul_of_nonneg_right h21 (le_of_lt hxb)]
  have hba := h12 e1
  have hac := h22 e2
  omega

/-- Mixed transitivity: if b strictly beats a but does not beat c, then a
does not beat c (counts positive). -/
theorem beats_trans_tf (a b c : StyleAgg) (ha : 1 ≤ a.count) (hb : 1 ≤ b.count)
    (hc : 1 ≤ c.count) (h1 : beats a b = true) (h2 : beats c b = false) :
    beats c a = false := by
  rw [beats_eq_true_iff] at h1
  rw [beats_eq_false_iff] at h2 ⊢
  have hxa : (0 : Int) < (a.count : Int) := by exact_mod_cast ha
  have hxb : (0 : Int) < (b.count : Int) := by exact_mod_cast hb
  have hxc : (0 : Int) < (c.count : Int) := by exact_mod_cast hc
  obtain ⟨h21, h22⟩ := h2
  rcases h1 with h1 | ⟨h1e, h1c⟩
  · have hmain : a.total * (c.count : Int) < c.total * (a.count : Int) := by
      nlinarith [mul_lt_mul_of_pos_right h1 hxc,
        mul_le_mul_of_nonneg_right h21 (le_of_lt hxa)]
    exact ⟨le_of_lt hmain, fun he => absurd he (by omega)⟩
  · have hmain : a.total * (c.count : Int) ≤ c.total * (a.count : Int) := by
      nlinarith [mul_le_mul_of_nonneg_right h21 (le_of_lt hxa)]
    refine ⟨hmain, fun he => ?_⟩
    have e1 : b.total * (c.count : Int) = c.total * (b.count : Int) := by
      nlinarith [mul_le_mul_of_nonneg_right h21 (le_of_lt hxa)]
    have hbc := h22 e1.symm
    omega

/-- The fold underlying pickBest returns an element of the scanned list or
the seed, and nothing scanned (nor the seed) strictly beats it. -/
theorem pickBest_fold (rest : List StyleAgg) :
    ∀ best, 1 ≤ best.count → (∀ h ∈ rest, 1 ≤ h.count) →
      ((rest.foldl (fun b h => if beats b h then h else b) best) = best ∨
        (rest.foldl (fun b h => if beats b h then h else b) best) ∈ rest) ∧
      beats (rest.foldl (fun b h => if beats b h then h else b) best) best = false ∧
      ∀ h ∈ rest, beats (rest.foldl (fun b h => if beats b h then h else b) best) h = false := by
  induction rest with
  | nil =>
    intro best hb _
    exact ⟨Or.inl rfl, beats_irrefl best, fun h hh => absurd hh (List.not_mem_nil h)⟩
  | cons g rest ih =>
    intro best hbest hpos
    have hgpos : 1 ≤ g.count := hpos g (List.mem_cons_self g rest)
    have hrest : ∀ h ∈ rest, 1 ≤ h.count :=
      fun h hh => hpos h (List.mem_cons_of_mem g hh)
    rw [List.foldl_cons]
    by_cases hb : beats best g = true
    · rw [if_pos hb]
      obtain ⟨hmem, hfb, hall⟩ := ih g hgpos hrest
      have hrpos : 1 ≤ (rest.foldl (fun b h => if beats b h then h else b) g).count := by
        rcases hmem with he | he
        · rw [he]; exact hgpos
        · exact hrest _ he
      refine ⟨?_, ?_, ?_⟩
      · rcases hmem with he | he
        · exact Or.inr (by rw [he]; exact List.mem_cons_self g rest)
        · exact Or.inr (List.mem_cons_of_mem g he)
      · exact beats_trans_tf best g _ hbest hgpos hrpos hb hfb
      · intro h hh
        rcases List.mem_cons.mp hh with rfl | hh
        · exact hfb
        · exact hall h hh
    · rw [if_neg hb]
      obtain ⟨hmem, hfb, hall⟩ := ih best hbest hrest
      have hrpos : 1 ≤ (rest.foldl (fun b h => if beats b h then h else b) best).count := by
        rcases hmem with he | he
        · rw [he]; exact hbest
        · exact hrest _ he
      refine ⟨?_, hfb, ?_⟩
      · rcases hmem with he | he
        · exact Or.inl he
        · exact Or.inr (List.mem_cons_of_mem g he)
      · intro h hh
        rcases List.mem_cons.mp hh with rfl | hh
        · exact beats_trans_ff best h _ hbest hgpos hrpos
            (Bool.eq_false_iff.mpr hb) hfb
        · exact hall h hh

/-- The first row of the sorted output is one of the groups and no group
strictly beats it. -/
theorem pickBest_spec (gs : List StyleAgg) (hpos : ∀ g ∈ gs, 1 ≤ g.count)
    (g : StyleAgg) (hg : pickBest gs = some g) :
    g ∈ gs ∧ ∀ h ∈ gs, beats g h = false := by
  cases gs with
  | nil => exact absurd hg (by rw [pickBest]; exact Option.noConfusion)
  | cons g0 rest =>
    rw [pickBest, Option.some.injEq] at hg
    subst hg
    obtain ⟨hmem, hfb, hall⟩ := pickBest_fold rest g0
      (hpos g0 (List.mem_cons_self g0 rest))
      (fun h hh => hpos h (List.mem_cons_of_mem g0 hh))
    refine ⟨?_, ?_⟩
    · rcases hmem with he | he
      · rw [he]; exact List.mem_cons_self g0 rest
      · exact List.mem_cons_of_mem g0 he
    · intro h hh
      rcases List.mem_cons.mp hh with rfl | hh
      · exact hfb
      · exact hall h hh

/-- pickBest returns none exactly on the empty group list. -/
theorem pickBest_eq_none_iff (gs : List StyleAgg) : pickBest gs = none ↔ gs = [] := by
  cases gs with
  | nil => simp [pickBest]
  | cons g rest => simp [pickBest]

/-!
Claim theorems.  Each claim of the specification is settled by exactly one
theorem below; fixture values follow for the witnesses.
-/

/-- C1: for every lesson_id, recommend groups the DialogueRecord rows of
that lesson by style, and (1) a lesson with zero records yields none;
(2) a returned style names a group whose mean understanding_score is at
least 4 (stated integrally as 4 * count ≤ total) and which is maximal:
every other group has a lower or equal mean (cross-multiplied with the
positive counts) and, on an exact mean tie, no larger count; (3) none is
returned exactly when every group falls below the 4.0 mean threshold. -/
theorem recommend_style_correct (log : List DialogueRow) (L : Int) :
    (log.filter (fun r => r.lesson_id == L) = [] → recommend_style log L = none) ∧
    (∀ s, recommend_style log L = some s →
      ∃ g ∈ styleGroups (lessonRows log L), g.style = s ∧
        4 * (g.count : Int) ≤ g.total ∧
        ∀ g2 ∈ styleGroups (lessonRows log L),
          g2.total * (g.count : Int) ≤ g.total * (g2.count : Int) ∧
          (g.total * (g2.count : Int) = g2.total * (g.count : Int) → g2.count ≤ g.count)) ∧
    (recommend_style log L = none ↔
      ∀ g ∈ styleGroups (lessonRows log L), g.total < 4 * (g.count : Int)) := by
  have hpos := styleGroups_count_pos (lessonRows log L)
  have hexp : recommend_style log L =
      (match pickBest (styleGroups (lessonRows log L)) with
       | some g => if 4 * (g.count : Int) ≤ g.total then some g.style else none
       | none => none) := rfl
  refine ⟨?_, ?_, ?_⟩
  · intro h
    rw [hexp, lessonRows, h]
    rfl
  · intro s hs
    rw [hexp] at hs
    rcases hpb : pickBest (styleGroups (lessonRows log L)) with _ | g
    · rw [hpb] at hs
      exact absurd hs (by simp)
    · rw [hpb] at hs
      have hs2 : (if 4 * (g.count : Int) ≤ g.total then some g.style else none) = some s := hs
      by_cases hth : 4 * (g.count : Int) ≤ g.total
      · rw [if_pos hth, Option.some.injEq] at hs2
        obtain ⟨hmem, hmax⟩ := pickBest_spec _ hpos g hpb
        refine ⟨g, hmem, hs2, hth, fun g2 hg2 => ?_⟩
        have hb := hmax g2 hg2
        rw [beats_eq_false_iff] at hb
        exact hb
      · rw [if_neg hth] at hs2
        exact absurd hs2 (by simp)
  · constructor
    · intro hnone g2 hg2
      rw [hexp] at hnone
      rcases hpb : pickBest (styleGroups (lessonRows log L)) with _ | w
      · rw [pickBest_eq_none_iff] at hpb
        rw [hpb] at hg2
        exact absurd hg2 (List.not_mem_nil g2)
      · rw [hpb] at hnone
        have hn2 : (if 4 * (w.count : Int) ≤ w.total then some w.style else none) = none :=
          hnone
        by_cases hth : 4 * (w.count : Int) ≤ w.total
        · rw [if_pos hth] at hn2
          exact absurd hn2 (by simp)
        · obtain ⟨hmem, hmax⟩ := pickBest_spec _ hpos w hpb
          have hb := hmax g2 hg2
          rw [beats_eq_false_iff] at hb
          have hwc : (0 : Int) < (w.count : Int) := by
            exact_mod_cast hpos w hmem
          have hg2c : (0 : Int) < (g2.count : Int) := by
            exact_mod_cast hpos g2 hg2
          have hwt : w.total < 4 * (w.count : Int) := by omega
          nlinarith [mul_lt_mul_of_pos_right hwt hg2c, hb.1]
    · intro hall
      rw [hexp]
      rcases hpb : pickBest (styleGroups (lessonRows log L)) with _ | w
      · rfl
      · obtain ⟨hmem, _⟩ := pickBest_spec _ hpos w hpb
        have hw := hall w hmem
        show (if 4 * (w.count : Int) ≤ w.total then some w.style else none) = none
        rw [if_neg (by omega)]

/-- Dialogue rows for the C1 witness: lesson 1 has Visual scores 5, 5, 4, 5
and Auditory scores 3, 2; a row of another lesson checks the filter. -/
def demoLog : List DialogueRow :=
  [⟨1, "s1", "Visual", "[]", 5⟩, ⟨1, "s2", "Visual", "[]", 5⟩,
   ⟨1, "s3", "Visual", "[]", 4⟩, ⟨1, "s4", "Visual", "[]", 5⟩,
   ⟨1, "s5", "Auditory", "[]", 3⟩, ⟨1, "s6", "Auditory", "[]", 2⟩,
   ⟨2, "s7", "Auditory", "[]", 1⟩]

/-- Witness for C1 at the spec example: Visual (mean 4.75, four records)
wins over Auditory (mean 2.5) for lesson 1. -/
theorem recommend_style_correct_witness :
    ∃ g ∈ styleGroups (lessonRows demoLog 1), g.style = "Visual" ∧
      4 * (g.count : Int) ≤ g.total ∧
      ∀ g2 ∈ styleGroups (lessonRows demoLog 1),
        g2.total * (g.count : Int) ≤ g.total * (g2.count : Int) ∧
        (g.total * (g2.count : Int) = g2.total * (g.count : Int) → g2.count ≤ g.count) :=
  (recommend_style_correct demoLog 1).2.1 "Visual" (by decide)

/-- A failing EXISTS check means the filter keeps nothing. -/
theorem filter_eq_nil_of_any_eq_false {α : Type} (p : α → Bool) (l : List α)
    (h : l.any p = false) : l.filter p = [] := by
  induction l with
  | nil => rfl
  | cons a l ih =>
    rw [List.any_cons, Bool.or_eq_false_iff] at h
    rw [List.filter_cons, h.1]
    simpa using ih h.2

/-- C2 counterexample: from an empty store, put payload p1 with
content_type "text", data the object a maps to 1, and quiz_data the empty
object, then put a second payload p2 for the same key.  A later get does
return data exactly as written by p1 and nothing of p2, but its quiz_data
is absent rather than the empty object of p1, so the claim that get
returns the first payload p1 fails on the quiz_data component. -/
theorem cache_put_twice_counterexample :
    get_cached_content (cache_content (cache_content [] 1 "Visual" "text"
        (Json.obj [("a", Json.num 1)]) (some (Json.obj [])))
        1 "Visual" "text" (Json.obj [("b", Json.num 2)]) none) 1 "Visual" =
      some ⟨"text", some (Json.obj [("a", Json.num 1)]), none⟩ ∧
    get_cached_content (cache_content (cache_content [] 1 "Visual" "text"
        (Json.obj [("a", Json.num 1)]) (some (Json.obj [])))
        1 "Visual" "text" (Json.obj [("b", Json.num 2)]) none) 1 "Visual" ≠
      some ⟨"text", some (Json.obj [("a", Json.num 1)]), some (Json.obj [])⟩ := by
  have hfalse : ([] : ContentStore).any (contentKeyMatch 1 "Visual") = false := rfl
  have hput := cache_content_of_absent [] 1 "Visual" "text" (Json.obj [("a", Json.num 1)])
    (some (Json.obj [])) hfalse
  have hany : (cache_content [] 1 "Visual" "text" (Json.obj [("a", Json.num 1)])
      (some (Json.obj []))).any (contentKeyMatch 1 "Visual") = true := by
    rw [hput]
    exact any_after_insert [] 1 "Visual" "text" _ _
  have he : get_cached_content (cache_content (cache_content [] 1 "Visual" "text"
      (Json.obj [("a", Json.num 1)]) (some (Json.obj [])))
      1 "Visual" "text" (Json.obj [("b", Json.num 2)]) none) 1 "Visual" =
      some ⟨"text", some (Json.obj [("a", Json.num 1)]), none⟩ := by
    rw [cache_content_of_present _ 1 "Visual" "text" (Json.obj [("b", Json.num 2)]) none hany]
    rw [get_after_put [] 1 "Visual" "text" (Json.obj [("a", Json.num 1)])
      (some (Json.obj [])) hfalse]
    rfl
  refine ⟨he, ?_⟩
  rw [he]
  intro hcon
  simp only [Option.some.injEq, CachedPayload.mk.injEq] at hcon
  exact absurd hcon.2.2 (by simp)

/-- C2 amended: with no prior row for the key, putting p1 and then p2
leaves the store exactly as after the first put (the second put neither
fails nor overwrites), exactly one row for the key is stored, and get
returns the payload determined by p1 alone: its content_type, its data
decoded exactly, and its quiz_data normalized by the Python truthiness
check of the write path (a falsy or absent quiz_data reads back as
absent); nothing of p2 is visible. -/
theorem cache_put_twice_amended (store : ContentStore) (L : Int) (S : String)
    (ct1 ct2 : String) (d1 d2 : Json) (q1 q2 : Option Json)
    (h : store.any (contentKeyMatch L S) = false) :
    cache_content (cache_content store L S ct1 d1 q1) L S ct2 d2 q2 =
      cache_content store L S ct1 d1 q1 ∧
    ((cache_content (cache_content store L S ct1 d1 q1) L S ct2 d2 q2).filter
        (contentKeyMatch L S)).length = 1 ∧
    get_cached_content (cache_content (cache_content store L S ct1 d1 q1) L S ct2 d2 q2)
        L S = some ⟨ct1, some d1, collapseQuiz q1⟩ := by
  have hput : cache_content store L S ct1 d1 q1 = store ++ [storedRow L S ct1 d1 q1] :=
    cache_content_of_absent store L S ct1 d1 q1 h
  have hany : (cache_content store L S ct1 d1 q1).any (contentKeyMatch L S) = true := by
    rw [hput]
    exact any_after_insert store L S ct1 d1 q1
  have hnoop := cache_content_of_present (cache_content store L S ct1 d1 q1) L S ct2 d2 q2
    hany
  refine ⟨hnoop, ?_, ?_⟩
  · rw [hnoop, hput, List.filter_append, filter_eq_nil_of_any_eq_false _ _ h,
      List.nil_append, List.filter_cons, contentKeyMatch_storedRow]
    rfl
  · rw [hnoop]
    exact get_after_put store L S ct1 d1 q1 h

/-- Witness for C2 at an empty store and two concrete payloads with truthy
quiz data on the first. -/
theorem cache_put_twice_amended_witness :
    cache_content (cache_content [] 1 "Visual" "text" (Json.str "one")
        (some (Json.obj [("q", Json.num 1)]))) 1 "Visual" "text" (Json.str "two") none =
      cache_content [] 1 "Visual" "text" (Json.str "one")
        (some (Json.obj [("q", Json.num 1)])) ∧
    ((cache_content (cache_content [] 1 "Visual" "text" (Json.str "one")
        (some (Json.obj [("q", Json.num 1)]))) 1 "Visual" "text" (Json.str "two")
        none).filter (contentKeyMatch 1 "Visual")).length = 1 ∧
    get_cached_content (cache_content (cache_content [] 1 "Visual" "text" (Json.str "one")
        (some (Json.obj [("q", Json.num 1)]))) 1 "Visual" "text" (Json.str "two") none)
        1 "Visual" =
      some ⟨"text", some (Json.str "one"), collapseQuiz (some (Json.obj [("q", Json.num 1)]))⟩ :=
  cache_put_twice_amended [] 1 "Visual" "text" "text" (Json.str "one") (Json.str "two")
    (some (Json.obj [("q", Json.num 1)])) none rfl

/-- C3 counterexample: a present but falsy quiz_data, here the empty
object, is stored as NULL by the truthiness check of cache_content and
decodes back as absent, not as the empty object it was: the round trip
fails for the empty structure (while absent itself does decode to
absent). -/
theorem quiz_roundtrip_counterexample :
    (get_cached_content (cache_content [] 1 "Visual" "text"
        (Json.obj [("text", Json.str "hi")]) (some (Json.obj []))) 1 "Visual").map
      CachedPayload.quiz_data = some none ∧
    some (Json.obj []) ≠ (none : Option Json) := by
  refine ⟨?_, by simp⟩
  rw [get_after_put [] 1 "Visual" "text" (Json.obj [("text", Json.str "hi")])
    (some (Json.obj [])) rfl]
  rfl

/-- C3 amended: with no prior row for the key, a put followed by a get
round trips the data exactly for every structured value, and round trips
quiz_data whenever it is absent or truthy: absent decodes to absent, never
to an empty structure, and a truthy quiz_data decodes to itself; a present
falsy quiz_data (empty structure, zero, empty string or false) is the one
exception, collapsing to absent. -/
theorem content_roundtrip_amended (store : ContentStore) (L : Int) (S : String)
    (ct : String) (d : Json) (q : Option Json)
    (h : store.any (contentKeyMatch L S) = false) :
    get_cached_content (cache_content store L S ct d q) L S =
      some ⟨ct, some d, collapseQuiz q⟩ ∧
    (q = none →
      get_cached_content (cache_content store L S ct d q) L S = some ⟨ct, some d, none⟩) ∧
    (∀ q0, q = some q0 → q0.truthy = true →
      get_cached_content (cache_content store L S ct d q) L S =
        some ⟨ct, some d, some q0⟩) := by
  have hmain := get_after_put store L S ct d q h
  refine ⟨hmain, ?_, ?_⟩
  · intro hq
    subst hq
    exact hmain
  · intro q0 hq ht
    subst hq
    rw [hmain, collapseQuiz, if_pos ht]

/-- Witness for C3 at an empty store, a nested data value and a truthy
quiz value. -/
theorem content_roundtrip_amended_witness :
    get_cached_content (cache_content [] 2 "Auditory" "audio"
        (Json.obj [("url", Json.str "u"), ("parts", Json.arr [Json.num 1, Json.num (-2)])])
        (some (Json.obj [("q", Json.str "ok")]))) 2 "Auditory" =
      some ⟨"audio",
        some (Json.obj [("url", Json.str "u"),
          ("parts", Json.arr [Json.num 1, Json.num (-2)])]),
        collapseQuiz (some (Json.obj [("q", Json.str "ok")]))⟩ ∧
    get_cached_content (cache_content [] 2 "Auditory" "audio"
        (Json.obj [("url", Json.str "u"), ("parts", Json.arr [Json.num 1, Json.num (-2)])])
        (some (Json.obj [("q", Json.str "ok")]))) 2 "Auditory" =
      some ⟨"audio",
        some (Json.obj [("url", Json.str "u"),
          ("parts", Json.arr [Json.num 1, Json.num (-2)])]),
        some (Json.obj [("q", Json.str "ok")])⟩ := by
  have h := content_roundtrip_amended [] 2 "Auditory" "audio"
    (Json.obj [("url", Json.str "u"), ("parts", Json.arr [Json.num 1, Json.num (-2)])])
    (some (Json.obj [("q", Json.str "ok")])) rfl
  exact ⟨h.1, h.2.2 (Json.obj [("q", Json.str "ok")]) rfl rfl⟩

/-- C4 counterexample: on the non-numeric grader output "I cannot grade
this" the endpoint returns the sentinel score 0 but appends nothing — the
dialogue log stays empty, contradicting the claim that the DialogueRecord
is still appended; and on the out-of-range numeric output "7" no sentinel
is substituted: 7 is stored and returned as is. -/
theorem grading_failure_counterexample :
    grade_conversation ⟨1, "Visual", Json.arr []⟩ "I cannot grade this" [] = (0, []) ∧
    grade_conversation ⟨1, "Visual", Json.arr []⟩ "7" [] =
      (7, [gradeRecord ⟨1, "Visual", Json.arr []⟩ 7]) := by
  exact ⟨rfl, rfl⟩

/-- C4 amended: when the grader output does not parse as an integer, the
grading operation returns the sentinel score 0 to the caller and appends
no DialogueRecord at all; when it parses as an integer v, even one outside
the 1 to 5 range, the record is appended with score v and v is returned
unchanged.  In both cases the operation is total: no failure reaches the
caller. -/
theorem grading_failure_amended (req : SocraticRequestM) (out : String)
    (log : List DialogueRow) :
    (pyToInt? (pyStrip out) = none → grade_conversation req out log = (0, log)) ∧
    (∀ v, pyToInt? (pyStrip out) = some v →
      grade_conversation req out log = (v, log ++ [gradeRecord req v]) ∧
      (gradeRecord req v).understanding_score = v ∧
      (gradeRecord req v).session_id = "session_placeholder") := by
  constructor
  · intro h
    rw [grade_conversation, h]
  · intro v h
    rw [grade_conversation, h]
    exact ⟨rfl, rfl, rfl⟩

/-- Witness for C4: the non-numeric output "N/A" yields 0 with no append;
the stripped numeric output " 7 " yields 7 appended as is. -/
theorem grading_failure_amended_witness :
    grade_conversation ⟨1, "Visual", Json.arr []⟩ "N/A" [] = (0, []) ∧
    grade_conversation ⟨1, "Visual", Json.arr []⟩ " 7 " [] =
      (7, [] ++ [gradeRecord ⟨1, "Visual", Json.arr []⟩ 7]) := by
  refine ⟨(grading_failure_amended ⟨1, "Visual", Json.arr []⟩ "N/A" []).1 rfl, ?_⟩
  exact ((grading_failure_amended ⟨1, "Visual", Json.arr []⟩ " 7 " []).2 7 rfl).1

/-- C5: a pre-populated (lesson_id, style) entry makes get_or_generate
return immediately with the cached content_type and data (the lesson title
coming from a separate title lookup that defaults to "Unknown Topic"), the
store unchanged and the generation collaborator never invoked. -/
theorem cache_hit_skips_generation (store : ContentStore) (lessons : List LessonRow)
    (L : Int) (S : String) (gen : String → String → Except String Json)
    (c : CachedPayload) (h : get_cached_content store L S = some c) :
    generate_adapted_content store lessons L S gen =
      (.ok { lesson_id := L,
             lesson_title :=
               (match lessons.find? (fun r => r.id == L) with
                | some row => row.lesson_title
                | none => "Unknown Topic"),
             learning_style := S, content_type := c.content_type, data := c.data },
       store, false) ∧
    (∀ gen2, generate_adapted_content store lessons L S gen =
      generate_adapted_content store lessons L S gen2) := by
  constructor
  · unfold generate_adapted_content generate_adapted_content_at
    rw [h]
  · intro gen2
    unfold generate_adapted_content generate_adapted_content_at
    rw [h]

/-- Fixture lesson row. -/
def demoLesson : LessonRow := ⟨1, "Cells", 1, "original text"⟩

/-- Fixture payload data. -/
def demoData : Json := Json.obj [("url", Json.str "img")]

/-- Fixture store holding a cached entry for (1, Visual), built by the
write path itself. -/
def demoStoreHit : ContentStore := cache_content [] 1 "Visual" "image" demoData none

/-- Fixture generation collaborator that always succeeds. -/
def demoGenOk : String → String → Except String Json := fun _ _ => .ok demoData

/-- Fixture generation collaborator that always fails. -/
def demoGenFail : String → String → Except String Json := fun _ _ => .error "boom"

/-- Witness for C5: with the (1, Visual) entry cached, even the failing
generator is never reached and the cached payload is served. -/
theorem cache_hit_skips_generation_witness :
    generate_adapted_content demoStoreHit [demoLesson] 1 "Visual" demoGenFail =
      (.ok { lesson_id := 1, lesson_title := "Cells", learning_style := "Visual",
             content_type := "image", data := some demoData }, demoStoreHit, false) ∧
    generate_adapted_content demoStoreHit [demoLesson] 1 "Visual" demoGenFail =
      generate_adapted_content demoStoreHit [demoLesson] 1 "Visual" demoGenOk := by
  have hget : get_cached_content demoStoreHit 1 "Visual" =
      some ⟨"image", some demoData, none⟩ := by
    rw [demoStoreHit, get_after_put [] 1 "Visual" "image" demoData none rfl]
    rfl
  have h := cache_hit_skips_generation demoStoreHit [demoLesson] 1 "Visual" demoGenFail
    ⟨"image", some demoData, none⟩ hget
  exact ⟨h.1, h.2 demoGenOk⟩

/-- C6: on a cache miss with the lesson present, a failing generation
collaborator propagates its error unchanged to the caller, the content
store is left untouched, and no caching happens. -/
theorem generation_failure_propagates (store : ContentStore) (lessons : List LessonRow)
    (L : Int) (S : String) (gen : String → String → Except String Json)
    (row : LessonRow) (e : String)
    (hMiss : get_cached_content store L S = none)
    (hRow : lessons.find? (fun r => r.id == L) = some row)
    (hGen : gen S row.original_text = .error e) :
    generate_adapted_content store lessons L S gen =
      (.error (.generationFailure e), store, true) := by
  unfold generate_adapted_content generate_adapted_content_at
  simp only [hMiss, hRow, hGen]

/-- Witness for C6 on an empty store and the failing generator. -/
theorem generation_failure_propagates_witness :
    generate_adapted_content [] [demoLesson] 1 "Visual" demoGenFail =
      (.error (.generationFailure "boom"), [], true) :=
  generation_failure_propagates [] [demoLesson] 1 "Visual" demoGenFail demoLesson "boom"
    rfl rfl rfl

/-- C7: a cache miss on a lesson_id with no lesson row surfaces the
explicit notFound outcome, and this outcome is distinct from a normal
cache miss: a miss on an existing lesson with a succeeding generator
yields an ok response, and a hit yields an ok response, neither an
error. -/
theorem lesson_not_found_distinct (store : ContentStore) (lessons : List LessonRow)
    (L : Int) (S : String) (gen : String → String → Except String Json) :
    (get_cached_content store L S = none → lessons.find? (fun r => r.id == L) = none →
      generate_adapted_content store lessons L S gen = (.error .notFound, store, false)) ∧
    (∀ row d, get_cached_content store L S = none →
      lessons.find? (fun r => r.id == L) = some row → gen S row.original_text = .ok d →
      ∃ resp, (generate_adapted_content store lessons L S gen).1 = .ok resp) ∧
    (∀ c, get_cached_content store L S = some c →
      ∃ resp, (generate_adapted_content store lessons L S gen).1 = .ok resp) := by
  refine ⟨?_, ?_, ?_⟩
  · intro hMiss hNo
    unfold generate_adapted_content generate_adapted_content_at
    rw [hMiss, hNo]
  · intro row d hMiss hRow hGen
    unfold generate_adapted_content generate_adapted_content_at
    simp only [hMiss, hRow, hGen]
    exact ⟨_, rfl⟩
  · intro c hHit
    unfold generate_adapted_content generate_adapted_content_at
    rw [hHit]
    exact ⟨_, rfl⟩

/-- Witness for C7: notFound on an unknown lesson, ok on a plain miss with
the lesson present, ok on a hit. -/
theorem lesson_not_found_distinct_witness :
    generate_adapted_content [] [] 1 "Visual" demoGenOk =
      (.error .notFound, [], false) ∧
    (∃ resp, (generate_adapted_content [] [demoLesson] 1 "Visual" demoGenOk).1 =
      .ok resp) ∧
    (∃ resp,
      (generate_adapted_content demoStoreHit [demoLesson] 1 "Visual" demoGenOk).1 =
        .ok resp) := by
  have hget : get_cached_content demoStoreHit 1 "Visual" =
      some ⟨"image", some demoData, none⟩ := by
    rw [demoStoreHit, get_after_put [] 1 "Visual" "image" demoData none rfl]
    rfl
  exact ⟨(lesson_not_found_distinct [] [] 1 "Visual" demoGenOk).1 rfl rfl,
    (lesson_not_found_distinct [] [demoLesson] 1 "Visual" demoGenOk).2.1 demoLesson demoData
      rfl rfl rfl,
    (lesson_not_found_distinct demoStoreHit [demoLesson] 1 "Visual" demoGenOk).2.2
      ⟨"image", some demoData, none⟩ hget⟩

/-- C8: on a cache miss with the lesson present and generation succeeding
with payload d, the response carries the freshly generated d and the
style-determined content type whatever the store state at put time is —
in particular even when a concurrent writer has already inserted a row
for the same key, in which case the put is a silent no-op — and the store
is not re-read: the final store is exactly the put applied to the
put-time state. -/
theorem miss_returns_own_payload (stGet stPut : ContentStore) (lessons : List LessonRow)
    (L : Int) (S : String) (gen : String → String → Except String Json)
    (row : LessonRow) (d : Json)
    (hMiss : get_cached_content stGet L S = none)
    (hRow : lessons.find? (fun r => r.id == L) = some row)
    (hGen : gen S row.original_text = .ok d) :
    (generate_adapted_content_at stGet stPut lessons L S gen).1 =
      .ok { lesson_id := L, lesson_title := row.lesson_title, learning_style := S,
            content_type := contentTypeFor S, data := some d } ∧
    (generate_adapted_content_at stGet stPut lessons L S gen).2.1 =
      cache_content stPut L S (contentTypeFor S) d none ∧
    (stPut.any (contentKeyMatch L S) = true →
      (generate_adapted_content_at stGet stPut lessons L S gen).2.1 = stPut) ∧
    (∀ stPut2, (generate_adapted_content_at stGet stPut lessons L S gen).1 =
      (generate_adapted_content_at stGet stPut2 lessons L S gen).1) := by
  unfold generate_adapted_content_at
  simp only [hMiss, hRow, hGen]
  exact ⟨trivial, trivial,
    fun hAny => cache_content_of_present stPut L S (contentTypeFor S) d none hAny,
    fun stPut2 => trivial⟩

/-- Fixture row a concurrent writer inserted for the same key with other
data. -/
def demoConflictRow : ContentRow :=
  storedRow 1 "Visual" "image" (Json.obj [("url", Json.str "other")]) none

/-- Witness for C8: the get-time store is empty (a miss) while the
put-time store already holds a conflicting row for (1, Visual); the caller
still receives its own fresh payload and the losing put is a no-op. -/
theorem miss_returns_own_payload_witness :
    (generate_adapted_content_at [] [demoConflictRow] [demoLesson] 1 "Visual"
        demoGenOk).1 =
      .ok { lesson_id := 1, lesson_title := "Cells", learning_style := "Visual",
            content_type := contentTypeFor "Visual", data := some demoData } ∧
    (generate_adapted_content_at [] [demoConflictRow] [demoLesson] 1 "Visual"
        demoGenOk).2.1 = [demoConflictRow] ∧
    (generate_adapted_content_at [] [demoConflictRow] [demoLesson] 1 "Visual"
        demoGenOk).1 =
      (generate_adapted_content_at [] [] [demoLesson] 1 "Visual" demoGenOk).1 := by
  have h := miss_returns_own_payload [] [demoConflictRow] [demoLesson] 1 "Visual"
    demoGenOk demoLesson demoData rfl rfl rfl
  exact ⟨h.1, h.2.2.1 rfl, h.2.2.2 []⟩

/-- C9: deleting a lesson removes exactly the lesson rows with that id and
nothing else: the cached-content and dialogue tables are untouched, so
every row keyed by the deleted lesson_id persists as an orphan; lessons
with other ids survive. -/
theorem delete_lesson_no_cascade (db : DBState) (L : Int) :
    (delete_lesson db L).generated_content = db.generated_content ∧
    (delete_lesson db L).socratic_dialogues = db.socratic_dialogues ∧
    (∀ r ∈ db.generated_content, r.lesson_id = L →
      r ∈ (delete_lesson db L).generated_content) ∧
    (∀ r ∈ db.socratic_dialogues, r.lesson_id = L →
      r ∈ (delete_lesson db L).socratic_dialogues) ∧
    (∀ lr ∈ (delete_lesson db L).lessons, lr.id ≠ L) ∧
    (∀ lr ∈ db.lessons, lr.id ≠ L → lr ∈ (delete_lesson db L).lessons) := by
  refine ⟨rfl, rfl, fun r hr _ => hr, fun r hr _ => hr, ?_, ?_⟩
  · intro lr hlr
    rw [delete_lesson] at hlr
    have := List.of_mem_filter hlr
    simpa using this
  · intro lr hlr hne
    rw [delete_lesson]
    exact List.mem_filter.mpr ⟨hlr, by simpa using hne⟩

/-- Fixture database with one lesson and rows of both other tables keyed
by it. -/
def demoOrphanDB : DBState :=
  ⟨[demoLesson], [demoConflictRow], [⟨1, "s1", "Visual", "[]", 5⟩]⟩

/-- Witness for C9: deleting lesson 1 leaves its cached content and
dialogue rows in place as orphans and no lesson row with id 1 survives. -/
theorem delete_lesson_no_cascade_witness :
    (delete_lesson demoOrphanDB 1).generated_content = demoOrphanDB.generated_content ∧
    (delete_lesson demoOrphanDB 1).socratic_dialogues = demoOrphanDB.socratic_dialogues ∧
    demoConflictRow ∈ (delete_lesson demoOrphanDB 1).generated_content ∧
    (∀ lr ∈ (delete_lesson demoOrphanDB 1).lessons, lr.id ≠ 1) := by
  have h := delete_lesson_no_cascade demoOrphanDB 1
  exact ⟨h.1, h.2.1, h.2.2.1 demoConflictRow (by rw [demoOrphanDB]; simp) rfl,
    h.2.2.2.2.1⟩

/-- C10: every DialogueRecord written by the grading operation carries the
constant session_id "session_placeholder", its lesson_id and style copied
from the request and its history and score as graded; two gradings of the
same (lesson_id, style) therefore append records agreeing on the whole
(lesson_id, session_id, style) identity, differing only in their stored
history and score. -/
theorem session_id_constant (req1 req2 : SocraticRequestM) (out1 out2 : String)
    (log1 log2 : List DialogueRow) (v1 v2 : Int)
    (h1 : pyToInt? (pyStrip out1) = some v1) (h2 : pyToInt? (pyStrip out2) = some v2)
    (hL : req1.lesson_id = req2.lesson_id) (hS : req1.style = req2.style) :
    (grade_conversation req1 out1 log1).2 = log1 ++ [gradeRecord req1 v1] ∧
    (grade_conversation req2 out2 log2).2 = log2 ++ [gradeRecord req2 v2] ∧
    (gradeRecord req1 v1).session_id = "session_placeholder" ∧
    (gradeRecord req1 v1).lesson_id = req1.lesson_id ∧
    (gradeRecord req1 v1).style = req1.style ∧
    (gradeRecord req1 v1).lesson_id = (gradeRecord req2 v2).lesson_id ∧
    (gradeRecord req1 v1).session_id = (gradeRecord req2 v2).session_id ∧
    (gradeRecord req1 v1).style = (gradeRecord req2 v2).style := by
  refine ⟨?_, ?_, rfl, rfl, rfl, hL, rfl, hS⟩
  · rw [grade_conversation, h1]
  · rw [grade_conversation, h2]

/-- Witness for C10: two gradings of lesson 1 with style Visual and
different histories and scores. -/
theorem session_id_constant_witness :
    (grade_conversation ⟨1, "Visual", Json.arr [Json.str "a"]⟩ "4" []).2 =
      [] ++ [gradeRecord ⟨1, "Visual", Json.arr [Json.str "a"]⟩ 4] ∧
    (grade_conversation ⟨1, "Visual", Json.arr [Json.str "b"]⟩ " 5 "
        [gradeRecord ⟨1, "Visual", Json.arr [Json.str "a"]⟩ 4]).2 =
      [gradeRecord ⟨1, "Visual", Json.arr [Json.str "a"]⟩ 4] ++
        [gradeRecord ⟨1, "Visual", Json.arr [Json.str "b"]⟩ 5] ∧
    (gradeRecord ⟨1, "Visual", Json.arr [Json.str "a"]⟩ 4).session_id =
      "session_placeholder" ∧
    (gradeRecord ⟨1, "Visual", Json.arr [Json.str "a"]⟩ 4).lesson_id = 1 ∧
    (gradeRecord ⟨1, "Visual", Json.arr [Json.str "a"]⟩ 4).style = "Visual" ∧
    (gradeRecord ⟨1, "Visual", Json.arr [Json.str "a"]⟩ 4).lesson_id =
      (gradeRecord ⟨1, "Visual", Json.arr [Json.str "b"]⟩ 5).lesson_id ∧
    (gradeRecord ⟨1, "Visual", Json.arr [Json.str "a"]⟩ 4).session_id =
      (gradeRecord ⟨1, "Visual", Json.arr [Json.str "b"]⟩ 5).session_id ∧
    (gradeRecord ⟨1, "Visual", Json.arr [Json.str "a"]⟩ 4).style =
      (gradeRecord ⟨1, "Visual", Json.arr [Json.str "b"]⟩ 5).style :=
  session_id_constant ⟨1, "Visual", Json.arr [Json.str "a"]⟩
    ⟨1, "Visual", Json.arr [Json.str "b"]⟩ "4" " 5 " []
    [gradeRecord ⟨1, "Visual", Json.arr [Json.str "a"]⟩ 4] 4 5 rfl rfl rfl rfl

end LearningPlatform
